import Mathlib

set_option maxHeartbeats 1000000

/-!
Verification development for the timelapse encoding pipeline of
`turtletimelapse` (Android module `TimelapseBuilderModule.kt` and the
TypeScript wrapper `app/lib/timelapse.ts`).

Modelling conventions:
* Kotlin `Int` values that are always non-negative in the pipeline
  (pixel sizes, frame rates after clamping, byte counts) are modelled as `Nat`;
  the raw `fps` option, which may be negative before clamping, is `Int`.
* Kotlin `Float`/`Double` arithmetic (`capTo1080`, the 0.9 shrink factor, the
  0.06 bitrate constant) is modelled as exact rational arithmetic realised over
  `Nat` with explicit rounding: `roundToInt` (round half towards positive
  infinity) on a non-negative quotient `a / b` is `(2*a + b) / (2*b)`.
* Kotlin strings used for path manipulation (`removePrefix`) are modelled as
  `List Char`; file names keep `String` (lexicographic order on code points).
* The effectful `build` method is modelled as a function from an environment
  describing the outcomes of all external operations (directory contents,
  image decoding, codec capability query, configure / encoder faults) to its
  outcome together with the trace of resource and file-system events it
  performs.
-/

/-- Mirrors `mul16` (TimelapseBuilderModule.kt line 22): `(x / 16) * 16`. -/
def mul16 (x : Nat) : Nat := (x / 16) * 16

/-- Round-half-up division: models Kotlin `(a / b : Double).roundToInt()` for
non-negative `a` and positive `b`, i.e. `⌊a / b + 1/2⌋`. -/
def roundDiv (a b : Nat) : Nat := (2 * a + b) / (2 * b)

/-- Mirrors Kotlin `List.distinct()` (keep the first occurrence of each
element, preserving order), used at line 66 of the module. -/
def distinctList : List Nat → List Nat
  | [] => []
  | a :: l => a :: (distinctList l).filter (fun x => x != a)

/-- The negotiated format (data class `Negotiated`, lines 24-28). -/
structure Negotiated where
  width : Nat
  height : Nat
  fps : Nat
deriving DecidableEq, Repr

/-- Mirrors `capTo1080` (lines 100-112): if the long edge exceeds 1920 the
size is scaled so the long edge becomes 1920, rounding each edge to the
nearest integer; Float arithmetic is modelled exactly, so
`roundToInt(longEdge * (1920 / longEdge)) = 1920` and the short edge becomes
`roundToInt(shortEdge * 1920 / longEdge)`. -/
def capTo1080 (w h : Nat) : Nat × Nat :=
  let longEdge := max w h
  if longEdge ≤ 1920 then (w, h)
  else
    let shortEdge := min w h
    let newLong := roundDiv (longEdge * 1920) longEdge
    let newShort := roundDiv (shortEdge * 1920) longEdge
    if h ≤ w then (newLong, newShort) else (newShort, newLong)

/-- The code after the while loop in `negotiateSizeFps` (lines 94-97): the
last-resort format built from the current edges. -/
def lastResort16 (tW tH longEdge shortEdge : Nat) : Negotiated :=
  if tH ≤ tW then ⟨max 16 (mul16 longEdge), max 16 (mul16 shortEdge), 15⟩
  else ⟨max 16 (mul16 shortEdge), max 16 (mul16 longEdge), 15⟩

/-- The shrink-by-10% while loop of `negotiateSizeFps` (lines 82-97).  The
loop variable `longEdge` strictly decreases on every iteration, so running it
with `fuel` at least the initial `longEdge` is equivalent to the unbounded
Kotlin `while` loop (see `shrinkGo_fuel_irrelevant`). `(longEdge * 0.9).roundToInt()`
is `(9 * longEdge + 5) / 10` exactly. -/
def shrinkGo (supported : Nat → Nat → Nat → Bool) (tW tH : Nat) :
    Nat → Nat → Nat → Negotiated
  | 0, longEdge, shortEdge => lastResort16 tW tH longEdge shortEdge
  | Nat.succ fuel, longEdge, shortEdge =>
    if 640 ≤ longEdge then
      if supported (max longEdge shortEdge) (min longEdge shortEdge) 15 then
        if tH ≤ tW then ⟨mul16 longEdge, mul16 shortEdge, 15⟩
        else ⟨mul16 shortEdge, mul16 longEdge, 15⟩
      else
        shrinkGo supported tW tH fuel (mul16 ((9 * longEdge + 5) / 10))
          (mul16 ((9 * shortEdge + 5) / 10))
    else lastResort16 tW tH longEdge shortEdge

/-- Mirrors `negotiateSizeFps` (lines 35-98).  `hasEncoder` is whether the
capability query produced an encoder name (line 45: `encoderName == null`
when it did not); `supported` is the capability predicate of lines 55-59.
When no capability query is available the code returns the capped size with
`listOf(requestFps, 30, 24, 15).first()`, i.e. `requestFps` (lines 46-48). -/
def negotiateSizeFps (hasEncoder : Bool) (supported : Nat → Nat → Nat → Bool)
    (requestW requestH requestFps : Nat) : Negotiated :=
  if hasEncoder = false then
    let c := capTo1080 requestW requestH
    let fps := requestFps
    ⟨mul16 (max 16 c.1), mul16 (max 16 c.2), fps⟩
  else
    let tryW := mul16 (max 16 requestW)
    let tryH := mul16 (max 16 requestH)
    let fpsCandidates := distinctList [requestFps, 30, 24, 15]
    match fpsCandidates.find? (fun fps => supported tryW tryH fps) with
    | some fps => ⟨tryW, tryH, fps⟩
    | none =>
      let c := capTo1080 tryW tryH
      let tryW2 := mul16 (max 16 c.1)
      let tryH2 := mul16 (max 16 c.2)
      match fpsCandidates.find? (fun fps => supported tryW2 tryH2 fps) with
      | some fps => ⟨tryW2, tryH2, fps⟩
      | none =>
        shrinkGo supported tryW2 tryH2 (max tryW2 tryH2) (max tryW2 tryH2)
          (min tryW2 tryH2)

/-- The bitrate target of line 158: `(w * h * fps * 0.06).roundToInt()`,
with `0.06 = 6/100` modelled exactly:
`⌊(6 * w * h * fps) / 100 + 1/2⌋ = (6 * (w * h * fps) + 50) / 100`. -/
def encTarget (w h fps : Nat) : Nat := (6 * (w * h * fps) + 50) / 100

/-- Kotlin `Int.coerceIn(lo, hi)`. -/
def coerceIn (x lo hi : Nat) : Nat := if x < lo then lo else if hi < x then hi else x

/-- The bitrate configured on the encoder (lines 157-160):
`target.coerceIn(1_500_000, 10_000_000)`. -/
def bitrate (w h fps : Nat) : Nat := coerceIn (encTarget w h fps) 1500000 10000000

/-- Modelled from the spec (amended): the bitrate formula
`clamp(round(width * height * fps * 0.06), 1.5 Mbps, 10 Mbps)` stated with
`min`/`max` as the spec's `clamp`. -/
def bitrateSpec (w h fps : Nat) : Nat :=
  min (max (encTarget w h fps) 1500000) 10000000

-- sanity examples (negotiation fallback trace checks)
example : mul16 1921 = 1920 := by decide
example :
    negotiateSizeFps true (fun _ _ _ => false) 10 10 30 = ⟨16, 16, 15⟩ := by decide
example :
    negotiateSizeFps true (fun w h f => w == 1728 && h == 0 && f == 15) 1920 16 7
      = ⟨1728, 0, 15⟩ := by decide
example : bitrate 1920 1088 120 = 10000000 := by decide
example : bitrate 640 480 30 = 1500000 := by decide

/-! ### Arithmetic lemmas about the negotiation helpers -/

lemma mul16_le (x : Nat) : mul16 x ≤ x := Nat.div_mul_le_self x 16

lemma mul16_mod (x : Nat) : mul16 x % 16 = 0 := Nat.mul_mod_left (x / 16) 16

lemma mul16_ge16 {x : Nat} (h : 16 ≤ x) : 16 ≤ mul16 x := by
  unfold mul16; omega

lemma le_max16_left (x : Nat) : 16 ≤ max 16 x := le_max_left 16 x

lemma mul16_max16_ge (x : Nat) : 16 ≤ mul16 (max 16 x) :=
  mul16_ge16 (le_max16_left x)

lemma mul16_max16_le {x y : Nat} (h : x ≤ y) : mul16 (max 16 x) ≤ max 16 y :=
  le_trans (mul16_le _) (max_le_max (le_refl 16) h)

lemma max16_mod {a b : Nat} (ha : a % 16 = 0) (hb : b % 16 = 0) :
    max a b % 16 = 0 := by
  rcases max_choice a b with h | h <;> rw [h] <;> assumption

lemma shrinkStep_le (x : Nat) : mul16 ((9 * x + 5) / 10) ≤ x :=
  le_trans (mul16_le _) (by omega)

lemma shrinkStep_lt {x : Nat} (h : 640 ≤ x) : mul16 ((9 * x + 5) / 10) < x :=
  lt_of_le_of_lt (mul16_le _) (by omega)

lemma roundDiv_cap_le {s L : Nat} (hL : 1920 ≤ L) : roundDiv (s * 1920) L ≤ s := by
  unfold roundDiv
  have hmul : s * 3840 ≤ s * (2 * L) := Nat.mul_le_mul (le_refl s) (by omega)
  have h1 : 2 * (s * 1920) + L ≤ L + 2 * L * s := by linarith
  calc (2 * (s * 1920) + L) / (2 * L) ≤ (L + 2 * L * s) / (2 * L) :=
        Nat.div_le_div_right h1
    _ = L / (2 * L) + s := Nat.add_mul_div_left L s (show 0 < 2 * L by omega)
    _ = s := by
        rw [Nat.div_eq_of_lt (show L < 2 * L by omega)]
        omega

lemma roundDiv_same {L : Nat} (h : 0 < L) : roundDiv (L * 1920) L = 1920 := by
  unfold roundDiv
  have h1 : 2 * (L * 1920) + L = L * 3841 := by ring
  have h2 : 2 * L = L * 2 := by ring
  rw [h1, h2, Nat.mul_div_mul_left 3841 2 h]

lemma capTo1080_eq (w h : Nat) :
    capTo1080 w h =
      if max w h ≤ 1920 then (w, h)
      else if h ≤ w then (1920, roundDiv (min w h * 1920) (max w h))
      else (roundDiv (min w h * 1920) (max w h), 1920) := by
  unfold capTo1080
  by_cases hle : max w h ≤ 1920
  · simp [hle]
  · by_cases hwh : h ≤ w
    · have hmax : max w h = w := max_eq_left hwh
      have hmin : min w h = h := min_eq_right hwh
      rw [hmax] at hle
      simp [hmax, hmin, hle, hwh, roundDiv_same (show 0 < w by omega)]
    · have hmax : max w h = h := max_eq_right (le_of_not_le hwh)
      have hmin : min w h = w := min_eq_left (le_of_not_le hwh)
      rw [hmax] at hle
      simp [hmax, hmin, hle, hwh, roundDiv_same (show 0 < h by omega)]

lemma capTo1080_fst_le (w h : Nat) : (capTo1080 w h).1 ≤ w := by
  rw [capTo1080_eq]
  split_ifs with hle hwh
  · exact le_refl w
  · have hmax : max w h = w := max_eq_left hwh
    omega
  · refine le_trans (roundDiv_cap_le (by omega)) ?_
    exact Nat.min_le_left w h

lemma capTo1080_snd_le (w h : Nat) : (capTo1080 w h).2 ≤ h := by
  rw [capTo1080_eq]
  split_ifs with hle hwh
  · exact le_refl h
  · refine le_trans (roundDiv_cap_le (by omega)) ?_
    exact Nat.min_le_right w h
  · have hmax : max w h = h := max_eq_right (by omega)
    omega

lemma distinctList_subset : ∀ (l : List Nat) (x : Nat), x ∈ distinctList l → x ∈ l := by
  intro l
  induction l with
  | nil => intro x hx; simp [distinctList] at hx
  | cons a l ih =>
    intro x hx
    simp only [distinctList, List.mem_cons, List.mem_filter] at hx
    rcases hx with h | ⟨h, _⟩
    · exact h ▸ List.mem_cons_self a l
    · exact List.mem_cons_of_mem a (ih x h)

/-- Running the shrink loop with any fuel at least the current `longEdge`
computes the same result: the fueled recursion is faithful to the unbounded
Kotlin `while (longEdge >= 640)` loop, whose variant `longEdge` strictly
decreases each iteration. -/
lemma shrinkGo_fuel_irrelevant (s : Nat → Nat → Nat → Bool) (tW tH : Nat) :
    ∀ f1 f2 L S, L ≤ f1 → L ≤ f2 →
      shrinkGo s tW tH f1 L S = shrinkGo s tW tH f2 L S := by
  intro f1
  induction f1 with
  | zero =>
    intro f2 L S h1 h2
    have hL : L = 0 := Nat.le_zero.mp h1
    subst hL
    cases f2 with
    | zero => rfl
    | succ m => simp [shrinkGo]
  | succ n ih =>
    intro f2 L S h1 h2
    cases f2 with
    | zero =>
      have hL : L = 0 := Nat.le_zero.mp h2
      subst hL
      simp [shrinkGo]
    | succ m =>
      simp only [shrinkGo]
      split
      · rename_i hge
        split
        · rfl
        · have hlt : mul16 ((9 * L + 5) / 10) < L := shrinkStep_lt hge
          exact ih m _ _ (by omega) (by omega)
      · rfl

lemma lastResort16_bounds {tW tH L S : Nat} (hL : L ≤ max tW tH) (hS : S ≤ min tW tH) :
    (lastResort16 tW tH L S).width ≤ max 16 tW ∧
    (lastResort16 tW tH L S).height ≤ max 16 tH ∧
    (lastResort16 tW tH L S).fps = 15 := by
  unfold lastResort16
  split
  · rename_i hwh
    have hmax : max tW tH = tW := max_eq_left hwh
    have hmin : min tW tH = tH := min_eq_right hwh
    refine ⟨?_, ?_, rfl⟩
    · exact max_le_max (le_refl 16) (le_trans (mul16_le L) (hmax ▸ hL))
    · exact max_le_max (le_refl 16) (le_trans (mul16_le S) (hmin ▸ hS))
  · rename_i hwh
    have hmax : max tW tH = tH := max_eq_right (by omega)
    have hmin : min tW tH = tW := min_eq_left (by omega)
    refine ⟨?_, ?_, rfl⟩
    · exact max_le_max (le_refl 16) (le_trans (mul16_le S) (hmin ▸ hS))
    · exact max_le_max (le_refl 16) (le_trans (mul16_le L) (hmax ▸ hL))

lemma shrinkGo_bounds (s : Nat → Nat → Nat → Bool) (tW tH : Nat) :
    ∀ fuel L S, L ≤ max tW tH → S ≤ min tW tH →
      (shrinkGo s tW tH fuel L S).width ≤ max 16 tW ∧
      (shrinkGo s tW tH fuel L S).height ≤ max 16 tH ∧
      (shrinkGo s tW tH fuel L S).fps = 15 := by
  intro fuel
  induction fuel with
  | zero => intro L S hL hS; exact lastResort16_bounds hL hS
  | succ n ih =>
    intro L S hL hS
    simp only [shrinkGo]
    split
    · split
      · split
        · rename_i _ _ hwh
          have hmax : max tW tH = tW := max_eq_left hwh
          have hmin : min tW tH = tH := min_eq_right hwh
          refine ⟨?_, ?_, rfl⟩
          · exact le_trans (le_trans (mul16_le L) (hmax ▸ hL)) (le_max_right 16 tW)
          · exact le_trans (le_trans (mul16_le S) (hmin ▸ hS)) (le_max_right 16 tH)
        · rename_i _ _ hwh
          have hmax : max tW tH = tH := max_eq_right (by omega)
          have hmin : min tW tH = tW := min_eq_left (by omega)
          refine ⟨?_, ?_, rfl⟩
          · exact le_trans (le_trans (mul16_le S) (hmin ▸ hS)) (le_max_right 16 tW)
          · exact le_trans (le_trans (mul16_le L) (hmax ▸ hL)) (le_max_right 16 tH)
      · exact ih _ _ (le_trans (shrinkStep_le L) hL) (le_trans (shrinkStep_le S) hS)
    · exact lastResort16_bounds hL hS

lemma find?_fps_mem {p : Nat → Bool} {reqFps fps : Nat}
    (h : (distinctList [reqFps, 30, 24, 15]).find? p = some fps) :
    fps = reqFps ∨ fps = 30 ∨ fps = 24 ∨ fps = 15 := by
  have hmem := List.mem_of_find?_eq_some h
  have hm2 := distinctList_subset _ _ hmem
  simp only [List.mem_cons, List.not_mem_nil, or_false] at hm2
  tauto

lemma tryW2_fst_le (reqW reqH : Nat) :
    mul16 (max 16 (capTo1080 (mul16 (max 16 reqW)) (mul16 (max 16 reqH))).1)
      ≤ max 16 reqW := by
  refine le_trans (le_trans (mul16_max16_le (capTo1080_fst_le _ _)) ?_) (mul16_le _)
  exact le_of_eq (max_eq_right (mul16_max16_ge reqW))

lemma tryW2_snd_le (reqW reqH : Nat) :
    mul16 (max 16 (capTo1080 (mul16 (max 16 reqW)) (mul16 (max 16 reqH))).2)
      ≤ max 16 reqH := by
  refine le_trans (le_trans (mul16_max16_le (capTo1080_snd_le _ _)) ?_) (mul16_le _)
  exact le_of_eq (max_eq_right (mul16_max16_ge reqH))

lemma lastResort16_c4 (tW tH L S : Nat) :
    (lastResort16 tW tH L S).width % 16 = 0 ∧
    (lastResort16 tW tH L S).height % 16 = 0 ∧
    16 ≤ max (lastResort16 tW tH L S).width (lastResort16 tW tH L S).height := by
  unfold lastResort16
  split <;>
    exact ⟨max16_mod (by decide) (mul16_mod _), max16_mod (by decide) (mul16_mod _),
      le_trans (le_max_left 16 _) (le_max_left _ _)⟩

lemma shrinkGo_c4 (s : Nat → Nat → Nat → Bool) (tW tH : Nat) :
    ∀ fuel L S,
      (shrinkGo s tW tH fuel L S).width % 16 = 0 ∧
      (shrinkGo s tW tH fuel L S).height % 16 = 0 ∧
      16 ≤ max (shrinkGo s tW tH fuel L S).width (shrinkGo s tW tH fuel L S).height := by
  intro fuel
  induction fuel with
  | zero => intro L S; exact lastResort16_c4 tW tH L S
  | succ n ih =>
    intro L S
    simp only [shrinkGo]
    split
    · rename_i hge
      split
      · have h16 : 16 ≤ mul16 L := mul16_ge16 (by omega)
        split
        · exact ⟨mul16_mod _, mul16_mod _, le_trans h16 (le_max_left _ _)⟩
        · exact ⟨mul16_mod _, mul16_mod _, le_trans h16 (le_max_right _ _)⟩
      · exact ih _ _
    · exact lastResort16_c4 tW tH L S

/-! ### Claims C3, C4, C5, C7 -/

/-- C3 (amended): for every capability predicate and request, the negotiated
frame rate is drawn from {requested, 30, 24, 15}, and each negotiated
dimension is bounded by the corresponding requested dimension raised to the
16-pixel floor (`width ≤ max 16 requestW`, `height ≤ max 16 requestH`).  The
claim's unqualified "smaller than or equal to the requested" bound fails for
requests below 16 pixels; see the counterexample. -/
theorem C3_negotiation_bounds (hasEncoder : Bool)
    (supported : Nat → Nat → Nat → Bool) (reqW reqH reqFps : Nat) :
    ((negotiateSizeFps hasEncoder supported reqW reqH reqFps).fps = reqFps ∨
      (negotiateSizeFps hasEncoder supported reqW reqH reqFps).fps = 30 ∨
      (negotiateSizeFps hasEncoder supported reqW reqH reqFps).fps = 24 ∨
      (negotiateSizeFps hasEncoder supported reqW reqH reqFps).fps = 15) ∧
    (negotiateSizeFps hasEncoder supported reqW reqH reqFps).width ≤ max 16 reqW ∧
    (negotiateSizeFps hasEncoder supported reqW reqH reqFps).height ≤ max 16 reqH := by
  simp only [negotiateSizeFps]
  split
  · exact ⟨Or.inl rfl, mul16_max16_le (capTo1080_fst_le _ _),
      mul16_max16_le (capTo1080_snd_le _ _)⟩
  · split
    · rename_i fps hfind
      exact ⟨find?_fps_mem hfind, mul16_le _, mul16_le _⟩
    · split
      · rename_i fps hfind
        exact ⟨find?_fps_mem hfind, tryW2_fst_le reqW reqH, tryW2_snd_le reqW reqH⟩
      · have hb := shrinkGo_bounds supported
          (mul16 (max 16 (capTo1080 (mul16 (max 16 reqW)) (mul16 (max 16 reqH))).1))
          (mul16 (max 16 (capTo1080 (mul16 (max 16 reqW)) (mul16 (max 16 reqH))).2))
          (max (mul16 (max 16 (capTo1080 (mul16 (max 16 reqW)) (mul16 (max 16 reqH))).1))
            (mul16 (max 16 (capTo1080 (mul16 (max 16 reqW)) (mul16 (max 16 reqH))).2)))
          (max (mul16 (max 16 (capTo1080 (mul16 (max 16 reqW)) (mul16 (max 16 reqH))).1))
            (mul16 (max 16 (capTo1080 (mul16 (max 16 reqW)) (mul16 (max 16 reqH))).2)))
          (min (mul16 (max 16 (capTo1080 (mul16 (max 16 reqW)) (mul16 (max 16 reqH))).1))
            (mul16 (max 16 (capTo1080 (mul16 (max 16 reqW)) (mul16 (max 16 reqH))).2)))
          (le_refl _) (le_refl _)
        refine ⟨Or.inr (Or.inr (Or.inr hb.2.2)), ?_, ?_⟩
        · refine le_trans hb.1 ?_
          refine le_trans (le_of_eq (max_eq_right (mul16_max16_ge _))) ?_
          exact tryW2_fst_le reqW reqH
        · refine le_trans hb.2.1 ?_
          refine le_trans (le_of_eq (max_eq_right (mul16_max16_ge _))) ?_
          exact tryW2_snd_le reqW reqH

/-- C3 counterexample: with a 10 by 10 request that no capability predicate
supports (the predicate is constantly false, so in particular the exact
request is not supported), the negotiator returns a 16 by 16 format: both
dimensions strictly exceed the requested ones, contradicting the claimed
"width and height each smaller than or equal to the requested width and
height". -/
theorem C3_counterexample :
    negotiateSizeFps true (fun _ _ _ => false) 10 10 30 = ⟨16, 16, 15⟩ ∧
    ¬ (negotiateSizeFps true (fun _ _ _ => false) 10 10 30).width ≤ 10 := by
  decide

/-- C4 (amended): on every return path of the negotiator, width and height
are each a multiple of 16, and the larger dimension is at least 16; the
smaller dimension, however, can drop below the claimed 16-pixel floor (down
to 0) on the shrink-ladder accept path, see the counterexample. -/
theorem C4_mod16 (hasEncoder : Bool) (supported : Nat → Nat → Nat → Bool)
    (reqW reqH reqFps : Nat) :
    (negotiateSizeFps hasEncoder supported reqW reqH reqFps).width % 16 = 0 ∧
    (negotiateSizeFps hasEncoder supported reqW reqH reqFps).height % 16 = 0 ∧
    16 ≤ max (negotiateSizeFps hasEncoder supported reqW reqH reqFps).width
      (negotiateSizeFps hasEncoder supported reqW reqH reqFps).height := by
  simp only [negotiateSizeFps]
  split
  · exact ⟨mul16_mod _, mul16_mod _, le_trans (mul16_max16_ge _) (le_max_left _ _)⟩
  · split
    · exact ⟨mul16_mod _, mul16_mod _, le_trans (mul16_max16_ge _) (le_max_left _ _)⟩
    · split
      · exact ⟨mul16_mod _, mul16_mod _, le_trans (mul16_max16_ge _) (le_max_left _ _)⟩
      · exact shrinkGo_c4 supported _ _ _ _ _

/-- C4 counterexample: with a 1920 by 16 request and a capability predicate
that accepts only the 1728 by 0 size at 15 fps, the negotiator reaches the
shrink ladder, rounds the short edge from 16 down through 14 to 0, and
returns a format of height 0 — a return path on which a dimension is below
the claimed floor of 16. -/
theorem C4_counterexample :
    negotiateSizeFps true (fun w h f => w == 1728 && h == 0 && f == 15) 1920 16 7
      = ⟨1728, 0, 15⟩ ∧
    ¬ 16 ≤ (negotiateSizeFps true (fun w h f => w == 1728 && h == 0 && f == 15)
        1920 16 7).height := by
  decide

/-- C5 (amended): the encoder bitrate equals
`clamp(round(width * height * fps * 0.06), 1_500_000, 10_000_000)`: the
constant k is 0.06 (inside the claimed 0.06 to 0.07 band) and the lower
bound is 1.5 Mbps as claimed, but the upper bound is 10 Mbps, not
approximately 12 Mbps; see the counterexample. -/
theorem C5_bitrate_clamp (w h fps : Nat) :
    bitrate w h fps = bitrateSpec w h fps ∧
    1500000 ≤ bitrate w h fps ∧ bitrate w h fps ≤ 10000000 := by
  unfold bitrate bitrateSpec coerceIn
  rcases Nat.lt_or_ge (encTarget w h fps) 1500000 with hlo | hlo
  · simp only [if_pos hlo]
    rw [max_eq_right (le_of_lt hlo)]
    omega
  · rw [if_neg (by omega), max_eq_left hlo]
    rcases Nat.lt_or_ge 10000000 (encTarget w h fps) with hhi | hhi
    · rw [if_pos hhi, min_eq_right (by omega)]
      omega
    · rw [if_neg (by omega), min_eq_left (by omega)]
      omega

/-- C5 counterexample: at the negotiable format 1920 by 1088 at 120 fps, the
raw target is 15_040_512, the code configures 10_000_000, while a clamp with
the claimed 12 Mbps upper bound would give 12_000_000 — so the configured
bitrate does not equal `clamp(w*h*fps*k, 1.5 Mbps, 12 Mbps)`. -/
theorem C5_counterexample :
    encTarget 1920 1088 120 = 15040512 ∧
    bitrate 1920 1088 120 = 10000000 ∧
    min (max (encTarget 1920 1088 120) 1500000) 12000000 = 12000000 ∧
    (10000000 : Nat) ≠ 12000000 := by
  exact ⟨by decide, by decide, by decide, by decide⟩

/-- The fps clamp of `build` (line 124):
`max(1, min(120, if (options.hasKey("fps")) options.getInt("fps") else 30))`. -/
def clampFps (hasFpsKey : Bool) (f : Int) : Int :=
  max 1 (min 120 (if hasFpsKey then f else 30))

/-- C7: in `build` the requested fps is clamped to [1, 120] before
negotiation (the clamped value is what `negotiateSizeFps` receives); in
particular an fps argument of 0 yields 1 and an fps argument of 500 yields
120. -/
theorem C7_fps_clamp (hasFpsKey : Bool) (f : Int) :
    1 ≤ clampFps hasFpsKey f ∧ clampFps hasFpsKey f ≤ 120 ∧
    clampFps true 0 = 1 ∧ clampFps true 500 = 120 := by
  refine ⟨le_max_left _ _, ?_, by decide, by decide⟩
  exact max_le (by norm_num) (min_le_left _ _)

/-! ### Frame selection, path handling, and the build pipeline model -/

/-- The frame filter of `build` (line 133) and of the wrapper
(`timelapse.ts` lines 109-112): keep names that start with `img_` and end
with `.jpg`.  Kotlin/TS `startsWith`/`endsWith` on strings are modelled as
prefix/suffix tests on the character lists. -/
def isFrameName (n : String) : Bool :=
  "img_".data.isPrefixOf n.data && ".jpg".data.isSuffixOf n.data

/-- Modelled from the spec: a filename of the form `img_` followed by exactly
five decimal digits followed by `.jpg` (13 characters in total).  Used only
to compare the spec's claimed pattern with the filter the code uses. -/
def matchesFramePattern (n : String) : Bool :=
  n.data.length == 13 && "img_".data.isPrefixOf n.data &&
    ".jpg".data.isSuffixOf n.data &&
    ((n.data.drop 4).take 5).all (fun c => c.isDigit)

/-- Lexicographic less-or-equal on character lists: the order Kotlin
`String.compareTo` (used by `sortedBy { it.name }`) induces on these ASCII
file names. -/
def lexLe : List Char → List Char → Bool
  | [], _ => true
  | _ :: _, [] => false
  | a :: as, b :: bs => if a < b then true else if b < a then false else lexLe as bs

/-- Lexicographic filename order as a relation on strings. -/
def nameLe (a b : String) : Prop := lexLe a.data b.data = true

instance : DecidableRel nameLe :=
  fun a b => inferInstanceAs (Decidable (lexLe a.data b.data = true))

/-- The frame list of `build` (lines 133-134): filter the directory listing
by `isFrameName`, then sort by name (`sortedBy { it.name }`, a stable sort in
ascending lexicographic order, modelled by insertion sort). -/
def listFrames (files : List String) : List String :=
  List.insertionSort nameLe (files.filter isFrameName)

/-- Kotlin `String.removePrefix` (line 127) over character lists: drop the
prefix when present, otherwise return the string unchanged. -/
def dropLeading (pre s : List Char) : List Char :=
  if pre.isPrefixOf s then s.drop pre.length else s

/-- The `file://` scheme prefix stripped at line 127. -/
def fileUriScheme : List Char := "file://".data

/-- The default output file name (line 125). -/
def defaultOutName : List Char := "timelapse.mp4".data

/-- The path separator inserted by `File(folder, outName).absolutePath`. -/
def sepChar : Char := '/'

/-- The reject codes of `build`:
`E_ARGS` (line 123), `E_DIR` (130), `E_EMPTY` (135), `E_IMG` (139),
`E_CODEC_CFG` (175), `E_CODEC` (251), `E_EXC` (254). -/
inductive ErrCode where
  | E_ARGS
  | E_DIR
  | E_EMPTY
  | E_IMG
  | E_CODEC_CFG
  | E_CODEC
  | E_EXC
deriving DecidableEq, Repr

/-- Observable resource and file-system events performed by `build`:
deletion of a stale output file (line 151), the configure attempt with its
format and bitrate (lines 154-170), creation of the muxer's output file
(line 181), rendering one frame into the encoder surface (lines 218-236),
and the five teardown calls of lines 241-245 in program order. -/
inductive Ev where
  | deleteStaleOut
  | configureFmt (fmt : Negotiated) (bitrateVal : Nat)
  | createMuxerFile
  | encodeFrame (name : String)
  | muxerStop
  | muxerRelease
  | codecStop
  | codecRelease
  | surfaceRelease
deriving DecidableEq, Repr

/-- The outcome of one `build` call: `promise.resolve` with the output URI,
or `promise.reject` with an error code. -/
inductive BuildOutcome where
  | resolve (uri : List Char)
  | reject (code : ErrCode)
deriving DecidableEq, Repr

/-- The environment of one `build` invocation: the request options and the
outcome of every external operation the pipeline performs.
`decodeDims` models `BitmapFactory.decodeFile` (`none` = the file cannot be
decoded; `some (w, h)` = decodes with those pixel dimensions) — the same
file decodes the same way at line 138 and in the loop at line 219.
`hasEncoder`/`supported` feed the capability negotiation; `configureOk` is
whether `codec.configure` succeeds (lines 168-176); `encodeFaultAt = some k`
means the encoder/muxer machinery throws during the k-th drain of the encode
phase (any of the `RuntimeException`/`CodecException` throw sites inside
`drainEncoder` or the loop, all landing in the outer catch blocks);
`staleOutExists` is whether a file already exists at the output path. -/
structure Env where
  dirOpt : Option (List Char)
  hasFpsKey : Bool
  fpsArg : Int
  outNameOpt : Option (List Char)
  dirExists : Bool
  files : List String
  decodeDims : String → Option (Nat × Nat)
  hasEncoder : Bool
  supported : Nat → Nat → Nat → Bool
  configureOk : Bool
  encodeFaultAt : Option Nat
  staleOutExists : Bool

/-- The teardown sequence of lines 241-245, in program order: muxer stop,
muxer release, codec stop, codec release, input-surface release (each call
is individually wrapped in a swallowing try/catch, so all five are always
attempted once this block is reached). -/
def releaseSeq : List Ev :=
  [Ev.muxerStop, Ev.muxerRelease, Ev.codecStop, Ev.codecRelease, Ev.surfaceRelease]

/-- Model of `build` (lines 117-256).  Follows the Kotlin control flow:
missing `dir` option rejects `E_ARGS`; the fps option is clamped; the
`file://` prefix is stripped from the directory; a missing directory rejects
`E_DIR`; an empty frame list rejects `E_EMPTY`; an undecodable first frame
rejects `E_IMG`; then the format is negotiated, a stale output file is
deleted, the encoder is configured (failure rejects `E_CODEC_CFG` — note the
already-created codec is not released), the muxer is created (which creates
the output file), every decodable frame is rendered and drained (an encoder
fault at that stage propagates to the outer catch, which rejects `E_EXC`
without any release), and on success the five teardown calls run and the
promise resolves with `file://<dir>/<outName>`. -/
def build (env : Env) : BuildOutcome × List Ev :=
  match env.dirOpt with
  | none => (.reject .E_ARGS, [])
  | some dir =>
    let _reqFps := clampFps env.hasFpsKey env.fpsArg
    let outName := env.outNameOpt.getD defaultOutName
    let dirPath := dropLeading fileUriScheme dir
    if env.dirExists = false then (.reject .E_DIR, [])
    else
      match listFrames env.files with
      | [] => (.reject .E_EMPTY, [])
      | firstFrame :: rest =>
        match env.decodeDims firstFrame with
        | none => (.reject .E_IMG, [])
        | some wh =>
          let neg := negotiateSizeFps env.hasEncoder env.supported wh.1 wh.2
            (clampFps env.hasFpsKey env.fpsArg).toNat
          let ev0 : List Ev := if env.staleOutExists then [Ev.deleteStaleOut] else []
          let evCfg := ev0 ++ [Ev.configureFmt neg (bitrate neg.width neg.height neg.fps)]
          if env.configureOk = false then (.reject .E_CODEC_CFG, evCfg)
          else
            let ev1 := evCfg ++ [Ev.createMuxerFile]
            let decoded := (firstFrame :: rest).filter
              (fun n => (env.decodeDims n).isSome)
            let okUri := fileUriScheme ++ dirPath ++ [sepChar] ++ outName
            match env.encodeFaultAt with
            | some k =>
              if k ≤ decoded.length then
                (.reject .E_EXC, ev1 ++ (decoded.take k).map Ev.encodeFrame)
              else
                (.resolve okUri, ev1 ++ decoded.map Ev.encodeFrame ++ releaseSeq)
            | none =>
              (.resolve okUri, ev1 ++ decoded.map Ev.encodeFrame ++ releaseSeq)

/-- Which resource a teardown event releases. -/
inductive Res where
  | encoder
  | surface
  | muxer
deriving DecidableEq, Repr

def resOf : Ev → Option Res
  | Ev.muxerStop => some Res.muxer
  | Ev.muxerRelease => some Res.muxer
  | Ev.codecStop => some Res.encoder
  | Ev.codecRelease => some Res.encoder
  | Ev.surfaceRelease => some Res.surface
  | _ => none

def isReleaseEv (e : Ev) : Bool := (resOf e).isSome

/-- The sequence of resources released along a trace, in order. -/
def releasedResources (t : List Ev) : List Res := t.filterMap resOf

def isResolveOutcome : BuildOutcome → Bool
  | BuildOutcome.resolve _ => true
  | BuildOutcome.reject _ => false

def evFrameName : Ev → Option String
  | Ev.encodeFrame n => some n
  | _ => none

/-- The names of the frames rendered into the encoder, in trace order. -/
def encodeNames (t : List Ev) : List String := t.filterMap evFrameName

/-- State of the file at the output path, as affected by a build trace. -/
inductive OutState where
  | missing
  | stale
  | incomplete
  | complete
deriving DecidableEq, Repr

/-- How one event affects the output file: deleting the stale file leaves
nothing; creating the muxer creates a (not yet finalized) file; a completed
`muxer.stop()` after the end-of-stream drain finalizes it. -/
def outStep (s : OutState) : Ev → OutState
  | Ev.deleteStaleOut => OutState.missing
  | Ev.createMuxerFile => OutState.incomplete
  | Ev.muxerStop => OutState.complete
  | _ => s

/-- The state of the output path after a build trace, given whether a stale
file existed beforehand. -/
def outAfter (staleExists : Bool) (t : List Ev) : OutState :=
  t.foldl outStep (if staleExists then OutState.stale else OutState.missing)

/-- Whether the invocation passes all the checks that precede output-file
preparation (lines 123-139): `dir` present, directory exists, at least one
frame, first frame decodable. -/
def reachesOutput (env : Env) : Bool :=
  env.dirOpt.isSome && env.dirExists &&
    (match listFrames env.files with
     | [] => false
     | f :: _ => (env.decodeDims f).isSome)

/-! ### Concrete build environments used in witnesses and counterexamples -/

/-- A fully healthy environment: existing directory with two frames (listed
out of order plus a non-frame file), everything decodes at 640 by 480, all
sizes supported, configure succeeds, no encoder fault, and a stale output
file from a previous run exists. -/
def envHappy : Env where
  dirOpt := some "/data/session1".data
  hasFpsKey := true
  fpsArg := 30
  outNameOpt := none
  dirExists := true
  files := ["img_00002.jpg", "img_00001.jpg", "note.txt"]
  decodeDims := fun _ => some (640, 480)
  hasEncoder := true
  supported := fun _ _ _ => true
  configureOk := true
  encodeFaultAt := none
  staleOutExists := true

/-- As `envHappy`, but the encoder machinery throws at the very first drain
of the encode phase. -/
def envFaulty : Env := { envHappy with encodeFaultAt := some 0 }

/-- As `envHappy`, but the directory holds no matching frame files, while a
stale output file from a previous successful run is present. -/
def envStaleEmpty : Env := { envHappy with files := ["note.txt"] }

/-- As `envHappy`, but the first (lexicographically smallest) frame cannot
be decoded. -/
def envFirstBad : Env :=
  { envHappy with
    decodeDims := fun n => if n = "img_00001.jpg" then none else some (640, 480) }

/-- Three frames of which the middle one cannot be decoded. -/
def envSkipSecond : Env :=
  { envHappy with
    files := ["img_00001.jpg", "img_00002.jpg", "img_00003.jpg"]
    decodeDims := fun n => if n = "img_00002.jpg" then none else some (640, 480) }

example : (build envHappy).1 = .resolve ("file:///data/session1/timelapse.mp4".data) := by
  decide
example : listFrames envHappy.files = ["img_00001.jpg", "img_00002.jpg"] := by decide
example : (build envFaulty).1 = .reject .E_EXC := by decide
example : encodeNames (build envSkipSecond).2 = ["img_00001.jpg", "img_00003.jpg"] := by
  decide

/-! ### Order properties of the filename comparison -/

lemma lexLe_total : ∀ xs ys : List Char, lexLe xs ys = true ∨ lexLe ys xs = true := by
  intro xs
  induction xs with
  | nil => intro ys; left; rfl
  | cons a as ih =>
    intro ys
    cases ys with
    | nil => right; rfl
    | cons b bs =>
      by_cases hab : a < b
      · left; simp [lexLe, hab]
      · by_cases hba : b < a
        · right; simp [lexLe, hba]
        · rcases ih bs with h | h
          · left; simp [lexLe, hab, hba, h]
          · right; simp [lexLe, hab, hba, h]

lemma lexLe_trans : ∀ xs ys zs : List Char,
    lexLe xs ys = true → lexLe ys zs = true → lexLe xs zs = true := by
  intro xs
  induction xs with
  | nil => intro ys zs _ _; rfl
  | cons a as ih =>
    intro ys zs h1 h2
    cases ys with
    | nil => simp [lexLe] at h1
    | cons b bs =>
      cases zs with
      | nil => simp [lexLe] at h2
      | cons c cs =>
        by_cases hab : a < b
        · by_cases hbc : b < c
          · simp [lexLe, lt_trans hab hbc]
          · by_cases hcb : c < b
            · simp [lexLe, hab] at h1
              simp [lexLe, hbc, hcb] at h2
            · have hbceq : b = c := le_antisymm (le_of_not_lt hcb) (le_of_not_lt hbc)
              subst hbceq
              simp [lexLe, hab]
        · by_cases hba : b < a
          · simp [lexLe, hab, hba] at h1
          · have habeq : a = b := le_antisymm (le_of_not_lt hba) (le_of_not_lt hab)
            subst habeq
            simp only [lexLe, if_neg (lt_irrefl a)] at h1
            by_cases hac : a < c
            · simp [lexLe, hac]
            · by_cases hca : c < a
              · simp [lexLe, hac, hca] at h2
              · simp only [lexLe, if_neg hac, if_neg hca] at h2 ⊢
                exact ih bs cs h1 h2

instance : IsTotal String nameLe := ⟨fun a b => lexLe_total a.data b.data⟩

instance : IsTrans String nameLe := ⟨fun a b c => lexLe_trans a.data b.data c.data⟩

/-! ### Trace bookkeeping lemmas -/

@[simp] lemma resOf_encodeFrame (n : String) : resOf (Ev.encodeFrame n) = none := rfl

@[simp] lemma isReleaseEv_encodeFrame (n : String) :
    isReleaseEv (Ev.encodeFrame n) = false := rfl

@[simp] lemma isReleaseEv_deleteStaleOut : isReleaseEv Ev.deleteStaleOut = false := rfl

@[simp] lemma isReleaseEv_configureFmt (n : Negotiated) (b : Nat) :
    isReleaseEv (Ev.configureFmt n b) = false := rfl

@[simp] lemma isReleaseEv_createMuxerFile :
    isReleaseEv Ev.createMuxerFile = false := rfl

@[simp] lemma isReleaseEv_muxerStop : isReleaseEv Ev.muxerStop = true := rfl

@[simp] lemma isReleaseEv_muxerRelease : isReleaseEv Ev.muxerRelease = true := rfl

@[simp] lemma isReleaseEv_codecStop : isReleaseEv Ev.codecStop = true := rfl

@[simp] lemma isReleaseEv_codecRelease : isReleaseEv Ev.codecRelease = true := rfl

@[simp] lemma isReleaseEv_surfaceRelease : isReleaseEv Ev.surfaceRelease = true := rfl

@[simp] lemma evFrameName_encodeFrame (n : String) :
    evFrameName (Ev.encodeFrame n) = some n := rfl

@[simp] lemma evFrameName_deleteStaleOut : evFrameName Ev.deleteStaleOut = none := rfl

@[simp] lemma evFrameName_configureFmt (n : Negotiated) (b : Nat) :
    evFrameName (Ev.configureFmt n b) = none := rfl

@[simp] lemma evFrameName_createMuxerFile :
    evFrameName Ev.createMuxerFile = none := rfl

@[simp] lemma outStep_deleteStaleOut (s : OutState) :
    outStep s Ev.deleteStaleOut = OutState.missing := rfl

@[simp] lemma outStep_createMuxerFile (s : OutState) :
    outStep s Ev.createMuxerFile = OutState.incomplete := rfl

@[simp] lemma outStep_muxerStop (s : OutState) :
    outStep s Ev.muxerStop = OutState.complete := rfl

@[simp] lemma outStep_muxerRelease (s : OutState) :
    outStep s Ev.muxerRelease = s := rfl

@[simp] lemma outStep_codecStop (s : OutState) : outStep s Ev.codecStop = s := rfl

@[simp] lemma outStep_codecRelease (s : OutState) :
    outStep s Ev.codecRelease = s := rfl

@[simp] lemma outStep_surfaceRelease (s : OutState) :
    outStep s Ev.surfaceRelease = s := rfl

@[simp] lemma filter_release_ite (b : Bool) :
    (if b then [Ev.deleteStaleOut] else []).filter isReleaseEv = [] := by
  cases b <;> rfl

@[simp] lemma filter_release_map_encode (l : List String) :
    (l.map Ev.encodeFrame).filter isReleaseEv = [] := by
  induction l with
  | nil => rfl
  | cons a l ih => simp [List.filter_cons, ih]

@[simp] lemma filter_release_cfg (n : Negotiated) (b : Nat) :
    ([Ev.configureFmt n b]).filter isReleaseEv = [] := rfl

@[simp] lemma filter_release_create :
    ([Ev.createMuxerFile] : List Ev).filter isReleaseEv = [] := rfl

@[simp] lemma filter_release_releaseSeq :
    releaseSeq.filter isReleaseEv = releaseSeq := rfl

@[simp] lemma encodeNames_nil : encodeNames [] = [] := rfl

@[simp] lemma encodeNames_append (t1 t2 : List Ev) :
    encodeNames (t1 ++ t2) = encodeNames t1 ++ encodeNames t2 :=
  List.filterMap_append t1 t2 evFrameName

@[simp] lemma encodeNames_ite (b : Bool) :
    encodeNames (if b then [Ev.deleteStaleOut] else []) = [] := by
  cases b <;> rfl

@[simp] lemma encodeNames_cfg (n : Negotiated) (b : Nat) :
    encodeNames [Ev.configureFmt n b] = [] := rfl

@[simp] lemma encodeNames_create : encodeNames [Ev.createMuxerFile] = [] := rfl

@[simp] lemma encodeNames_releaseSeq : encodeNames releaseSeq = [] := rfl

@[simp] lemma encodeNames_map_encode (l : List String) :
    encodeNames (l.map Ev.encodeFrame) = l := by
  induction l with
  | nil => rfl
  | cons a l ih => simpa [encodeNames, List.filterMap_cons, evFrameName] using ih

@[simp] lemma outStep_cfg (s : OutState) (n : Negotiated) (b : Nat) :
    outStep s (Ev.configureFmt n b) = s := rfl

@[simp] lemma outStep_encode (s : OutState) (n : String) :
    outStep s (Ev.encodeFrame n) = s := rfl

lemma foldl_outStep_encodes (s : OutState) (l : List String) :
    (l.map Ev.encodeFrame).foldl outStep s = s := by
  induction l generalizing s with
  | nil => rfl
  | cons a l ih => simpa using ih s

lemma foldl_outStep_take_encodes (s : OutState) (l : List String) (k : Nat) :
    ((l.take k).map Ev.encodeFrame).foldl outStep s = s :=
  foldl_outStep_encodes s (l.take k)

lemma foldl_outStep_take_cons (s : OutState) (f : String) (l : List String) (k : Nat) :
    (List.take k (Ev.encodeFrame f :: l.map Ev.encodeFrame)).foldl outStep s = s := by
  have h : Ev.encodeFrame f :: l.map Ev.encodeFrame = (f :: l).map Ev.encodeFrame := rfl
  rw [h, ← List.map_take]
  exact foldl_outStep_encodes s ((f :: l).take k)

@[simp] lemma foldl_outStep_releaseSeq (s : OutState) :
    releaseSeq.foldl outStep s = OutState.complete := rfl

/-! ### Claim C1 -/

/-- C1 (amended): resource teardown happens only on the success path, and
there in the program order muxer stop, muxer release, encoder stop, encoder
release, input-surface release; on every reject path (bad arguments, missing
directory, no frames, undecodable first frame, configure failure and every
encoder fault during encoding) no release is performed before the error is
propagated.  The claim's release order (encoder, then surface, then muxer)
and its "on every exit path" guarantee both fail on the code; see the
counterexample. -/
theorem C1_release_discipline (env : Env) :
    (build env).2.filter isReleaseEv =
      (if isResolveOutcome (build env).1 then releaseSeq else []) := by
  rcases hdo : env.dirOpt with _ | dir
  · simp [build, hdo, isResolveOutcome]
  · cases hde : env.dirExists
    · simp [build, hdo, hde, isResolveOutcome]
    · rcases hlf : listFrames env.files with _ | ⟨f, rest⟩
      · simp [build, hdo, hde, hlf, isResolveOutcome]
      · rcases hdec : env.decodeDims f with _ | wh
        · simp [build, hdo, hde, hlf, hdec, isResolveOutcome]
        · cases hcfg : env.configureOk
          · simp [build, hdo, hde, hlf, hdec, hcfg, isResolveOutcome,
              List.filter_append]
          · rcases hfa : env.encodeFaultAt with _ | k
            · simp [build, hdo, hde, hlf, hdec, hcfg, hfa, isResolveOutcome,
                List.filter_append, List.filter_cons]
            · by_cases hk :
                k ≤ ((f :: rest).filter (fun n => (env.decodeDims n).isSome)).length
              · have hk2 :
                  k ≤ (rest.filter (fun n => (env.decodeDims n).isSome)).length + 1 := by
                  simpa [List.filter_cons, hdec] using hk
                simp [build, hdo, hde, hlf, hdec, hcfg, hfa, hk, hk2,
                  isResolveOutcome, List.filter_append, List.filter_cons]
                intro a ha
                rcases List.mem_cons.mp (List.mem_of_mem_take ha) with h | h
                · subst h; rfl
                · obtain ⟨n, -, rfl⟩ := List.mem_map.mp h
                  rfl
              · have hk2 :
                  ¬ k ≤ (rest.filter (fun n => (env.decodeDims n).isSome)).length + 1 := by
                  simpa [List.filter_cons, hdec] using hk
                simp [build, hdo, hde, hlf, hdec, hcfg, hfa, hk, hk2,
                  isResolveOutcome, List.filter_append, List.filter_cons]

/-- C1 counterexample: in `envFaulty` the encoder faults during encoding;
`build` rejects `E_EXC` yet releases nothing (the claim requires encoder,
surface and muxer to be released on every error path).  And on the fully
successful `envHappy` run the releases occur in the order muxer, muxer,
encoder, encoder, surface — not in the claimed encoder-first order. -/
theorem C1_counterexample :
    (build envFaulty).1 = BuildOutcome.reject ErrCode.E_EXC ∧
    releasedResources (build envFaulty).2 = [] ∧
    isResolveOutcome (build envHappy).1 = true ∧
    releasedResources (build envHappy).2 =
      [Res.muxer, Res.muxer, Res.encoder, Res.encoder, Res.surface] ∧
    [Res.muxer, Res.muxer, Res.encoder, Res.encoder, Res.surface] ≠
      [Res.encoder, Res.encoder, Res.surface, Res.muxer, Res.muxer] :=
  ⟨by decide, by decide, by decide, by decide, by decide⟩

/-! ### Claim C2 -/

/-- C2 (amended): the stale output file is deleted only on invocations that
pass the directory, frame-listing and first-frame-decode checks (the delete
at lines 150-151 runs just before encoder configuration); once an invocation
reaches that point the output path never still holds the stale file, and on
success it holds the complete output.  Invocations that fail earlier leave
any previous output file in place, and an encoder fault after the muxer is
created leaves a partially-written file; see the counterexample. -/
theorem C2_output_state (env : Env) :
    (reachesOutput env = true →
      outAfter env.staleOutExists (build env).2 ≠ OutState.stale) ∧
    (isResolveOutcome (build env).1 = true →
      outAfter env.staleOutExists (build env).2 = OutState.complete) := by
  rcases hdo : env.dirOpt with _ | dir
  · refine ⟨fun hr => ?_, fun hr => ?_⟩
    · simp [reachesOutput, hdo] at hr
    · simp [build, hdo, isResolveOutcome] at hr
  · cases hde : env.dirExists
    · refine ⟨fun hr => ?_, fun hr => ?_⟩
      · simp [reachesOutput, hde] at hr
      · simp [build, hdo, hde, isResolveOutcome] at hr
    · rcases hlf : listFrames env.files with _ | ⟨f, rest⟩
      · refine ⟨fun hr => ?_, fun hr => ?_⟩
        · simp [reachesOutput, hlf] at hr
        · simp [build, hdo, hde, hlf, isResolveOutcome] at hr
      · rcases hdec : env.decodeDims f with _ | wh
        · refine ⟨fun hr => ?_, fun hr => ?_⟩
          · simp [reachesOutput, hlf, hdec] at hr
          · simp [build, hdo, hde, hlf, hdec, isResolveOutcome] at hr
        · cases hcfg : env.configureOk
          · refine ⟨fun _ => ?_, fun hr => ?_⟩
            · cases hso : env.staleOutExists <;>
                simp [build, hdo, hde, hlf, hdec, hcfg, hso, outAfter, outStep,
                  List.foldl_append]
            · simp [build, hdo, hde, hlf, hdec, hcfg, isResolveOutcome] at hr
          · rcases hfa : env.encodeFaultAt with _ | k
            · refine ⟨fun _ => ?_, fun _ => ?_⟩
              · cases hso : env.staleOutExists <;>
                  simp [build, hdo, hde, hlf, hdec, hcfg, hfa, hso, outAfter,
                    outStep, List.foldl_append, foldl_outStep_encodes]
              · cases hso : env.staleOutExists <;>
                  simp [build, hdo, hde, hlf, hdec, hcfg, hfa, hso, outAfter,
                    outStep, List.foldl_append, foldl_outStep_encodes]
            · by_cases hk :
                k ≤ ((f :: rest).filter (fun n => (env.decodeDims n).isSome)).length
              · have hk2 :
                  k ≤ (rest.filter (fun n => (env.decodeDims n).isSome)).length + 1 := by
                  simpa [List.filter_cons, hdec] using hk
                refine ⟨fun _ => ?_, fun hr => ?_⟩
                · cases hso : env.staleOutExists <;>
                    simp [build, hdo, hde, hlf, hdec, hcfg, hfa, hk, hk2, hso,
                      outAfter, List.foldl_append, foldl_outStep_take_cons]
                · simp [build, hdo, hde, hlf, hdec, hcfg, hfa, hk, hk2,
                    isResolveOutcome] at hr
              · have hk2 :
                  ¬ k ≤ (rest.filter (fun n => (env.decodeDims n).isSome)).length + 1 := by
                  simpa [List.filter_cons, hdec] using hk
                refine ⟨fun _ => ?_, fun _ => ?_⟩
                · cases hso : env.staleOutExists <;>
                    simp [build, hdo, hde, hlf, hdec, hcfg, hfa, hk, hk2, hso,
                      outAfter, List.foldl_append, foldl_outStep_encodes]
                · cases hso : env.staleOutExists <;>
                    simp [build, hdo, hde, hlf, hdec, hcfg, hfa, hk, hk2, hso,
                      outAfter, List.foldl_append, foldl_outStep_encodes]

/-- C2 witness: `envHappy` reaches the output stage, so after its build the
output path does not hold the stale file, and since the build resolves the
output file is complete. -/
theorem C2_witness :
    outAfter envHappy.staleOutExists (build envHappy).2 ≠ OutState.stale ∧
    outAfter envHappy.staleOutExists (build envHappy).2 = OutState.complete :=
  ⟨(C2_output_state envHappy).1 (by decide), (C2_output_state envHappy).2 (by decide)⟩

/-- C2 counterexample: in `envStaleEmpty` a stale output from a previous run
exists and the directory holds no frames, so `build` rejects `E_EMPTY`
without ever deleting the stale file — an error return with a usable output
file still sitting at the target path, contradicting both "removed before
the build starts regardless of the previous attempt's outcome" and "when
build returns an error no usable output file exists at that path".  In
`envFaulty` the encoder faults after the muxer created the file, so the
error is returned while a partially-written file remains. -/
theorem C2_counterexample :
    (build envStaleEmpty).1 = BuildOutcome.reject ErrCode.E_EMPTY ∧
    outAfter envStaleEmpty.staleOutExists (build envStaleEmpty).2 = OutState.stale ∧
    (build envFaulty).1 = BuildOutcome.reject ErrCode.E_EXC ∧
    outAfter envFaulty.staleOutExists (build envFaulty).2 = OutState.incomplete :=
  ⟨by decide, by decide, by decide, by decide⟩

@[simp] lemma filterMap_evFrameName_map (l : List String) :
    List.filterMap evFrameName (l.map Ev.encodeFrame) = l := by
  induction l with
  | nil => rfl
  | cons a l ih => simp [List.filterMap_cons, ih]

@[simp] lemma filterMap_evFrameName_releaseSeq :
    List.filterMap evFrameName releaseSeq = [] := rfl

@[simp] lemma filterMap_evFrameName_ite (b : Bool) :
    List.filterMap evFrameName (if b then [Ev.deleteStaleOut] else []) = [] := by
  cases b <;> rfl

@[simp] lemma filterMap_evFrameName_comp (l : List String) :
    List.filterMap (evFrameName ∘ Ev.encodeFrame) l = l := by
  induction l with
  | nil => rfl
  | cons a l ih => simp [List.filterMap_cons, Function.comp, evFrameName, ih]

lemma filterMap_evFrameName_take_cons (f : String) (l : List String) (k : Nat) :
    List.filterMap evFrameName
      (List.take k (Ev.encodeFrame f :: l.map Ev.encodeFrame)) =
        List.take k (f :: l) := by
  have h : Ev.encodeFrame f :: l.map Ev.encodeFrame = (f :: l).map Ev.encodeFrame := rfl
  rw [h, ← List.map_take]
  exact filterMap_evFrameName_map _

/-! ### Claim C6 -/

/-- C6 (amended): the frame source selects exactly the files whose names
start with `img_` and end with `.jpg` — it does not check for five digits —
returns them sorted in ascending lexicographic filename order (`nameLe`),
and every frame the encoder renders is drawn from that sorted list in order
(the rendered names are always a prefix, i.e. a `take`, of the sorted list
restricted to the decodable frames).  The claimed 5-digit pattern is not
enforced by the code; see the counterexample. -/
theorem C6_frame_selection :
    (∀ (files : List String) (n : String),
        n ∈ listFrames files ↔ (n ∈ files ∧ isFrameName n = true)) ∧
    (∀ files : List String, List.Sorted nameLe (listFrames files)) ∧
    (∀ env : Env, ∃ k,
        encodeNames (build env).2 =
          ((listFrames env.files).filter (fun n => (env.decodeDims n).isSome)).take k) := by
  refine ⟨?_, ?_, ?_⟩
  · intro files n
    unfold listFrames
    rw [List.mem_insertionSort]
    exact List.mem_filter
  · intro files
    exact List.sorted_insertionSort nameLe _
  · intro env
    rcases hdo : env.dirOpt with _ | dir
    · exact ⟨0, by simp [build, hdo, encodeNames]⟩
    · cases hde : env.dirExists
      · exact ⟨0, by simp [build, hdo, hde, encodeNames]⟩
      · rcases hlf : listFrames env.files with _ | ⟨f, rest⟩
        · exact ⟨0, by simp [build, hdo, hde, hlf, encodeNames]⟩
        · rcases hdec : env.decodeDims f with _ | wh
          · exact ⟨0, by simp [build, hdo, hde, hlf, hdec, encodeNames]⟩
          · cases hcfg : env.configureOk
            · exact ⟨0, by simp [build, hdo, hde, hlf, hdec, hcfg, encodeNames,
                List.filterMap_append, List.filterMap_cons]⟩
            · rcases hfa : env.encodeFaultAt with _ | k
              · refine ⟨((f :: rest).filter (fun n => (env.decodeDims n).isSome)).length, ?_⟩
                simp [build, hdo, hde, hlf, hdec, hcfg, hfa, encodeNames,
                  List.filterMap_append, List.filterMap_cons, List.filter_cons]
              · by_cases hk :
                  k ≤ ((f :: rest).filter (fun n => (env.decodeDims n).isSome)).length
                · have hk2 :
                    k ≤ (rest.filter (fun n => (env.decodeDims n).isSome)).length + 1 := by
                    simpa [List.filter_cons, hdec] using hk
                  refine ⟨k, ?_⟩
                  simp [build, hdo, hde, hlf, hdec, hcfg, hfa, hk, hk2, encodeNames,
                    List.filterMap_append, List.filterMap_cons, List.filter_cons,
                    filterMap_evFrameName_take_cons]
                · have hk2 :
                    ¬ k ≤ (rest.filter (fun n => (env.decodeDims n).isSome)).length + 1 := by
                    simpa [List.filter_cons, hdec] using hk
                  refine ⟨((f :: rest).filter (fun n => (env.decodeDims n).isSome)).length, ?_⟩
                  simp [build, hdo, hde, hlf, hdec, hcfg, hfa, hk, hk2, encodeNames,
                    List.filterMap_append, List.filterMap_cons, List.filter_cons]

/-- C6 counterexample: the name `img_x.jpg` does not match the claimed
pattern `img_<5-digit index>.jpg`, yet the frame source selects it rather
than ignoring it: the code's filter is only a prefix/suffix test. -/
theorem C6_counterexample :
    isFrameName "img_x.jpg" = true ∧
    matchesFramePattern "img_x.jpg" = false ∧
    listFrames ["img_x.jpg"] = ["img_x.jpg"] :=
  ⟨by decide, by decide, by decide⟩

/-! ### Claim C8 -/

/-- C8: once `build` reaches the frame list, a decode failure of the first
(size-reference) frame is fatal — the call rejects with the
first-frame-undecodable error `E_IMG` and performs nothing else — while with
a decodable first frame (and a healthy encoder) every undecodable later
frame is simply skipped: the build resolves and the rendered frames are
exactly the decodable ones, in order. -/
theorem C8_decode_policy (env : Env) (f : String) (rest : List String)
    (hdo : env.dirOpt.isSome = true) (hde : env.dirExists = true)
    (hlf : listFrames env.files = f :: rest) :
    (env.decodeDims f = none → build env = (.reject .E_IMG, [])) ∧
    (∀ wh, env.decodeDims f = some wh → env.configureOk = true →
      env.encodeFaultAt = none →
      isResolveOutcome (build env).1 = true ∧
      encodeNames (build env).2 =
        (f :: rest).filter (fun n => (env.decodeDims n).isSome)) := by
  obtain ⟨dir, hdir⟩ := Option.isSome_iff_exists.mp hdo
  constructor
  · intro hdec
    simp [build, hdir, hde, hlf, hdec]
  · intro wh hdec hcfg hfa
    constructor
    · simp [build, hdir, hde, hlf, hdec, hcfg, hfa, isResolveOutcome]
    · simp [build, hdir, hde, hlf, hdec, hcfg, hfa, encodeNames,
        List.filterMap_append, List.filterMap_cons, List.filter_cons]

/-- C8 witness: in `envFirstBad` the first frame `img_00001.jpg` cannot be
decoded and the build rejects `E_IMG`; in `envSkipSecond` only the middle
frame `img_00002.jpg` fails to decode, the build resolves, and exactly the
two decodable frames are rendered, in order. -/
theorem C8_witness :
    build envFirstBad = (.reject .E_IMG, []) ∧
    isResolveOutcome (build envSkipSecond).1 = true ∧
    encodeNames (build envSkipSecond).2 = ["img_00001.jpg", "img_00003.jpg"] := by
  refine ⟨?_, ?_, ?_⟩
  · exact (C8_decode_policy envFirstBad "img_00001.jpg" ["img_00002.jpg"]
      (by decide) (by decide) (by decide)).1 (by decide)
  · exact ((C8_decode_policy envSkipSecond "img_00001.jpg"
      ["img_00002.jpg", "img_00003.jpg"] (by decide) (by decide) (by decide)).2
      (640, 480) (by decide) (by decide) (by decide)).1
  · have h := ((C8_decode_policy envSkipSecond "img_00001.jpg"
      ["img_00002.jpg", "img_00003.jpg"] (by decide) (by decide) (by decide)).2
      (640, 480) (by decide) (by decide) (by decide)).2
    rw [h]
    decide

/-! ### Claim C10 -/

lemma isPrefixOf_append_self (pre p : List Char) :
    pre.isPrefixOf (pre ++ p) = true := by
  induction pre with
  | nil => exact List.isPrefixOf_nil_left
  | cons a as ih => simp [List.isPrefixOf, ih]

lemma dropLeading_append (pre p : List Char) : dropLeading pre (pre ++ p) = p := by
  simp [dropLeading, isPrefixOf_append_self, List.drop_left]

lemma dropLeading_of_no (pre p : List Char) (h : pre.isPrefixOf p = false) :
    dropLeading pre p = p := by
  simp [dropLeading, h]

/-- C10 (amended): `build` strips exactly one leading `file://` prefix from
the directory argument, so for every directory whose underlying path does
not itself start with `file://`, passing the plain path and passing the
`file://` URI yield identical builds (same outcome, same trace).  For the
pathological directory path that itself starts with `file://` the plain form
is mangled by the strip; see the counterexample. -/
theorem C10_uri_transparent (env : Env) (p : List Char)
    (h : fileUriScheme.isPrefixOf p = false) :
    build { env with dirOpt := some (fileUriScheme ++ p) } =
      build { env with dirOpt := some p } := by
  simp only [build, dropLeading_append, dropLeading_of_no _ _ h]

/-- C10 witness: for the concrete session path `/data/session1` (which does
not start with `file://`), the URI form and the plain form produce identical
builds. -/
theorem C10_witness :
    fileUriScheme.isPrefixOf "/data/session1".data = false ∧
    build { envHappy with dirOpt := some (fileUriScheme ++ "/data/session1".data) } =
      build { envHappy with dirOpt := some ("/data/session1".data) } :=
  ⟨by decide, C10_uri_transparent envHappy "/data/session1".data (by decide)⟩

/-- C10 counterexample: for a directory whose real path is `file://tmp`, the
plain-path form is stripped to `tmp` while the URI form denotes `file://tmp`,
so "for every directory the two forms denote the same path and the build
behaves identically" fails: the two builds resolve to different output
URIs. -/
theorem C10_counterexample :
    dropLeading fileUriScheme "file://tmp".data = "tmp".data ∧
    dropLeading fileUriScheme (fileUriScheme ++ "file://tmp".data) = "file://tmp".data ∧
    "tmp".data ≠ "file://tmp".data ∧
    build { envHappy with dirOpt := some "file://tmp".data } ≠
      build { envHappy with dirOpt := some (fileUriScheme ++ "file://tmp".data) } :=
  ⟨by decide, by decide, by decide, by decide⟩

/-! ### Claim C9 -/

/-- `Color.BLACK` (the solid background painted at line 222 with
`PorterDuff.Mode.SRC` over the whole canvas before the bitmap is drawn),
as its ARGB word. -/
def colorBlack : Nat := 0xFF000000

/-- One composited frame: the background color filled over the whole canvas
and the destination rectangle `RectF(left, top, left + dw, top + dh)` of the
drawn bitmap (lines 220-229). -/
structure Composited where
  bg : Nat
  left : ℚ
  top : ℚ
  dw : ℚ
  dh : ℚ

/-- The per-frame compositing of lines 222-229: fill with solid black, then
`scale = min(w / bmp.width, h / bmp.height)`, `dw = bmp.width * scale`,
`dh = bmp.height * scale`, `left = (w - dw) / 2`, `top = (h - dh) / 2`.
Android `Float` arithmetic is modelled over `ℚ`. -/
def composite (w h iw ih : ℚ) : Composited :=
  let scale := min (w / iw) (h / ih)
  let dw := iw * scale
  let dh := ih * scale
  { bg := colorBlack
    left := (w - dw) / 2
    top := (h - dh) / 2
    dw := dw
    dh := dh }

/-- C9: every decoded frame is drawn scaled by
`min(canvasW / imgW, canvasH / imgH)` (so the source aspect ratio is
preserved: `dw * ih = dh * iw`), centered both horizontally and vertically
(the left margin equals the right margin and the top margin equals the
bottom margin), the drawn rectangle fits inside the canvas, and the rest of
the canvas is filled with the solid black background. -/
theorem C9_letterbox (w h iw ih : ℚ) (hiw : 0 < iw) (hih : 0 < ih) :
    (composite w h iw ih).bg = colorBlack ∧
    (composite w h iw ih).dw = iw * min (w / iw) (h / ih) ∧
    (composite w h iw ih).dh = ih * min (w / iw) (h / ih) ∧
    (composite w h iw ih).dw * ih = (composite w h iw ih).dh * iw ∧
    (composite w h iw ih).left =
      w - ((composite w h iw ih).left + (composite w h iw ih).dw) ∧
    (composite w h iw ih).top =
      h - ((composite w h iw ih).top + (composite w h iw ih).dh) ∧
    0 ≤ (composite w h iw ih).left ∧ 0 ≤ (composite w h iw ih).top ∧
    (composite w h iw ih).left + (composite w h iw ih).dw ≤ w ∧
    (composite w h iw ih).top + (composite w h iw ih).dh ≤ h := by
  have hdw : iw * min (w / iw) (h / ih) ≤ w := by
    calc iw * min (w / iw) (h / ih) ≤ iw * (w / iw) :=
          mul_le_mul_of_nonneg_left (min_le_left _ _) (le_of_lt hiw)
      _ = w := mul_div_cancel₀ w (ne_of_gt hiw)
  have hdh : ih * min (w / iw) (h / ih) ≤ h := by
    calc ih * min (w / iw) (h / ih) ≤ ih * (h / ih) :=
          mul_le_mul_of_nonneg_left (min_le_right _ _) (le_of_lt hih)
      _ = h := mul_div_cancel₀ h (ne_of_gt hih)
  refine ⟨rfl, rfl, rfl, ?_, ?_, ?_, ?_, ?_, ?_, ?_⟩
  · simp only [composite]; ring
  · simp only [composite]; ring
  · simp only [composite]; ring
  · simp only [composite]; linarith
  · simp only [composite]; linarith
  · simp only [composite]; linarith
  · simp only [composite]; linarith

/-- C9 witness: a concrete 32 by 16 frame on a 64 by 48 canvas scales by 2,
is centered at left margin 0 and top margin 8, and fits the canvas. -/
theorem C9_witness :
    (composite 64 48 32 16).bg = colorBlack ∧
    (composite 64 48 32 16).dw = 32 * min ((64 : ℚ) / 32) ((48 : ℚ) / 16) ∧
    (composite 64 48 32 16).dh = 16 * min ((64 : ℚ) / 32) ((48 : ℚ) / 16) ∧
    (composite 64 48 32 16).dw * 16 = (composite 64 48 32 16).dh * 32 ∧
    (composite 64 48 32 16).left =
      64 - ((composite 64 48 32 16).left + (composite 64 48 32 16).dw) ∧
    (composite 64 48 32 16).top =
      48 - ((composite 64 48 32 16).top + (composite 64 48 32 16).dh) ∧
    0 ≤ (composite 64 48 32 16).left ∧ 0 ≤ (composite 64 48 32 16).top ∧
    (composite 64 48 32 16).left + (composite 64 48 32 16).dw ≤ 64 ∧
    (composite 64 48 32 16).top + (composite 64 48 32 16).dh ≤ 48 :=
  C9_letterbox 64 48 32 16 (by norm_num) (by norm_num)
